import Mathlib

/-!
Verification of the build-name resolution core of ConfigParserEnhanced's
`wip` tree (`src/wip/genconfig/src/config_keyword_parser.py`, class
`ConfigKeywordParser`, and its `loadenv` sibling).  The Python code is
shallowly embedded: the configuration section is an ordered list of
(entry-name, raw-value-block) pairs, fatal `sys.exit` calls become an
`Err`-valued `Except`, and the two validation asserts whose bodies live
outside the provided sources are abstracted as parameters (or modelled
from the spec where a claim is about them).
-/

namespace CKPModel

/-- Whitespace set of Python's `str.strip` / regex `\s` (ASCII part). -/
def isWS (c : Char) : Bool :=
  c = ' ' || c = '\t' || c = '\n' || c = '\r' || c = '\x0b' || c = '\x0c'

/-- Python `text.find(pat) != -1`-style check at the head: `pat` begins `l`. -/
def leadsWith : List Char → List Char → Bool
  | [], _ => true
  | _ :: _, [] => false
  | a :: as, b :: bs => a = b && leadsWith as bs

/-- Substring containment on character lists: Python's `pat in text`. -/
def hasSubstr (pat : List Char) : List Char → Bool
  | [] => pat.isEmpty
  | l@(_ :: t) => leadsWith pat l || hasSubstr pat t

/-- Python's `pat in text` for strings (bare substring containment). -/
def strIn (pat text : String) : Bool :=
  hasSubstr pat.data text.data

/-- Python's `s.replace("_", "-")` on a single character. -/
def subChar (c : Char) : Char :=
  if c = '_' then '-' else c

/-- Python's `s.replace("_", "-")`: the underscore/hyphen normalization
applied to the build name (line 44) and to each alias (line 202). -/
def normalize (s : String) : String :=
  ⟨s.data.map subChar⟩

/-- Python's `s.strip()` on a character list. -/
def trimL (l : List Char) : List Char :=
  ((l.dropWhile isWS).reverse.dropWhile isWS).reverse

/-- One iteration of the regex group `(?:\s*?#.*\n*)*` from
`get_env_name_for_alias` (line 200): if a run of whitespace is followed
by a literal `#`, consume through the end of that line and any
following newlines; otherwise consume nothing (`none`). -/
def afterComment (l : List Char) : Option (List Char) :=
  match l.dropWhile isWS with
  | [] => none
  | c :: rest =>
    if c = '#' then
      some ((rest.dropWhile (fun c => !(c = '\n'))).dropWhile (fun c => c = '\n'))
    else none

theorem afterComment_length {l l2 : List Char} (h : afterComment l = some l2) :
    l2.length < l.length := by
  unfold afterComment at h
  split at h
  next => exact absurd h (by simp)
  next c rest hd =>
    split at h
    next =>
      simp only [Option.some.injEq] at h
      subst h
      calc ((rest.dropWhile (fun c => !(c = '\n'))).dropWhile (fun c => c = '\n')).length
          ≤ (rest.dropWhile (fun c => !(c = '\n'))).length :=
            (List.dropWhile_sublist _).length_le
        _ ≤ rest.length := (List.dropWhile_sublist _).length_le
        _ < (c :: rest).length := by simp
        _ ≤ l.length := by rw [← hd]; exact (List.dropWhile_sublist _).length_le
    next => exact absurd h (by simp)

/-- Fueled iteration of `afterComment`: the full comment-skipping group
`(?:\s*?#.*\n*)*` applied greedily at the current position. -/
def skipCommentsF : Nat → List Char → List Char
  | 0, l => l
  | fuel + 1, l =>
    match afterComment l with
    | some l2 => skipCommentsF fuel l2
    | none => l

/-- The comment-skipping group at the current position; `l.length` fuel
suffices because every iteration consumes at least the `#`. -/
def skipComments (l : List Char) : List Char :=
  skipCommentsF l.length l

/-- Characters excluded from the regex capture `[^#^\n]*`. -/
def notTokC (c : Char) : Bool :=
  c = '#' || c = '^' || c = '\n'

/-- Fueled scan reproducing Python's
`re.findall(r"(?:\s*?#.*\n*)*([^#^\n]*)", a)` (line 199): at each
position skip comment groups, capture a maximal `[^#^\n]*` run, and on a
zero-width overall match emit the empty capture and advance one
character, exactly as `findall` does. -/
def findTokensF : Nat → List Char → List (List Char)
  | 0, _ => []
  | fuel + 1, l =>
    let l2 := skipComments l
    let tok := l2.takeWhile (fun c => !notTokC c)
    let rest := l2.drop tok.length
    if rest.length < l.length then
      tok :: findTokensF fuel rest
    else
      match l with
      | [] => [[]]
      | _ :: t => [] :: findTokensF fuel t

/-- All captures of the alias-splitting regex over a raw value block. -/
def findTokens (l : List Char) : List (List Char) :=
  findTokensF (l.length + 1) l

/-- The alias list parsed from one entry's raw value block: regex
captures, dropped if empty pre-strip, then stripped and normalized
(lines 199-203 of `config_keyword_parser.py`; `get_values_for_section_key`
of the base class is modelled by the same tokenization, which the
comment at line 198 states is shared). -/
def parseAliases (block : String) : List String :=
  ((findTokens block.data).filter (fun t => !t.isEmpty)).map
    (fun t => (⟨(trimL t).map subChar⟩ : String))

/-- Length-descending comparison used by `sorted(key=len, reverse=True)`
(lines 48-49): `a` may precede `b` exactly when `a` is at least as long. -/
def lenGE (a b : String) : Prop :=
  b.length ≤ a.length

instance : DecidableRel lenGE := fun _ _ => Nat.decLe _ _

instance : IsTotal String lenGE := ⟨fun a b => Nat.le_total b.length a.length⟩

instance : IsTrans String lenGE := ⟨fun _ _ _ h1 h2 => Nat.le_trans h2 h1⟩

/-- Python's stable `sorted(l, key=len, reverse=True)`: length
descending, ties kept in original order (insertion sort is stable). -/
def sortLenDesc (l : List String) : List String :=
  List.insertionSort lenGE l

/-- Python's stable `sorted(l)` on strings: lexicographic ascending. -/
def sortAlpha (l : List String) : List String :=
  List.insertionSort (fun a b : String => a ≤ b) l

/-- The fatal-error channel: each constructor is one `sys.exit` site of
the embedded code, carrying the message pieces that site interpolates. -/
inductive Err where
  /-- `assert_alias_list_values_are_unique` failure (line 287). -/
  | duplicateAliases (msg : String) (offenders : List String)
  /-- `assert_aliases_not_equal_to_env_names` failure (line 318). -/
  | aliasEqualsEnvName (msg : String) (offenders : List String)
  /-- No environment name and no alias matched (line 120). -/
  | notFound (msg : String) (extras : String)
  /-- `get_env_name_for_alias` internal-consistency failure (line 209). -/
  | aliasNotFound (msg : String)
  /-- Versioned-component check failure (modelled from the spec). -/
  | unsupportedVersion (msg : String) (extras : String)
  /-- Node-type check failure (modelled from the spec). -/
  | unsupportedNodeType (msg : String) (extras : String)
deriving DecidableEq

instance {ε α : Type} [DecidableEq ε] [DecidableEq α] : DecidableEq (Except ε α)
  | .ok a, .ok b => if h : a = b then .isTrue (by rw [h]) else .isFalse (by simp [h])
  | .ok _, .error _ => .isFalse (by simp)
  | .error _, .ok _ => .isFalse (by simp)
  | .error e, .error f => if h : e = f then .isTrue (by rw [h]) else .isFalse (by simp [h])

/-- State of a constructed `ConfigKeywordParser`: the normalized build
name, the system name, the configuration filename, the system's section
as an ordered (entry-name, raw-value-block) list, and the two sorted
match lists computed in `__init__` (lines 41-49). -/
structure CKP where
  build_name : String
  system_name : String
  supported_envs_filename : String
  sect : List (String × String)
  env_names : List String
  aliases : List String
deriving DecidableEq

/-- Aliases of every entry concatenated in configuration order
(`get_aliases` loop, lines 154-157). -/
def gatherAliases (sec : List (String × String)) : List String :=
  (sec.map (fun e => parseAliases e.2)).flatten

/-- First-occurrence deduplication, modelling iteration over Python's
`set(alias_list)` (the claim-relevant content is which values appear,
each exactly once). -/
def dedupF : List String → List String
  | [] => []
  | a :: l => a :: (dedupF l).filter (fun b => !(b = a))

/-- The duplicated alias values, each listed once
(`assert_alias_list_values_are_unique`, line 283). -/
def dupAliases (l : List String) : List String :=
  (dedupF l).filter (fun a => 1 < l.count a)

/-- `assert_alias_list_values_are_unique` (lines 265-291). -/
def assertAliasListValuesAreUnique (sys : String) (l : List String) : Except Err Unit :=
  if dupAliases l = [] then .ok ()
  else .error (.duplicateAliases ("Aliases for '" ++ sys ++ "' contains duplicates:")
    (dupAliases l))

/-- `assert_aliases_not_equal_to_env_names` (lines 293-322). -/
def assertAliasesNotEqualToEnvNames (sys : String) (envNames : List String)
    (l : List String) : Except Err Unit :=
  if l.filter (fun a => envNames.contains a) = [] then .ok ()
  else .error (.aliasEqualsEnvName
    ("Alias found for '" ++ sys ++ "' that matches an environment name:")
    (l.filter (fun a => envNames.contains a)))

/-- `get_aliases` (lines 141-162): gather, validate uniqueness, validate
non-collision with environment names, return the raw gathered list. -/
def getAliases (sys : String) (envNames : List String)
    (sec : List (String × String)) : Except Err (List String) :=
  match assertAliasListValuesAreUnique sys (gatherAliases sec) with
  | .error e => .error e
  | .ok _ =>
    match assertAliasesNotEqualToEnvNames sys envNames (gatherAliases sec) with
    | .error e => .error e
    | .ok _ => .ok (gatherAliases sec)

/-- `__init__` (lines 41-49): normalize the build name, sort the
section's entry names and gathered aliases longest-first. -/
def mkCKP (bn sys fn : String) (sec : List (String × String)) : Except Err CKP :=
  match getAliases sys (sortLenDesc (sec.map Prod.fst)) sec with
  | .error e => .error e
  | .ok al => .ok ⟨normalize bn, sys, fn, sec, sortLenDesc (sec.map Prod.fst),
      sortLenDesc al⟩

/-- The scan of `get_env_name_for_alias` (lines 187-206): walk entries
in configuration order, skip empty value blocks, return the first entry
whose parsed aliases contain the matched alias. -/
def findAliasOwner (matchedAlias : String) : List (String × String) → Option String
  | [] => none
  | (name, v) :: rest =>
    if v = "" then findAliasOwner matchedAlias rest
    else if (parseAliases v).contains matchedAlias then some name
    else findAliasOwner matchedAlias rest

/-- `get_env_name_for_alias` (lines 167-216). -/
def envNameForAlias (c : CKP) (matchedAlias : String) : Except Err String :=
  match findAliasOwner matchedAlias c.sect with
  | some n => .ok n
  | none => .error (.aliasNotFound
      ("Unable to find alias '" ++ matchedAlias ++ "' in aliases for '"
        ++ c.system_name ++ "'.\n"))

/-- The enumeration behind `get_msg_showing_supported_environments`
(lines 251-260): environment names sorted alphabetically, each paired
with its aliases, also sorted alphabetically.  Ownership is decided by
`get_env_name_for_alias`, which for validated aliases is the
`findAliasOwner` scan. -/
def supportedEnvsEnum (c : CKP) : List (String × List String) :=
  (sortAlpha c.env_names).map (fun name =>
    (name, sortAlpha (c.aliases.filter
      (fun a => findAliasOwner a c.sect == some name))))

/-- Rendering of one enumeration entry inside the extras block
(lines 253-260). -/
def renderEnvEntry (p : String × List String) : String :=
  "  - " ++ p.1 ++ "\n"
    ++ (if p.2.length > 0 then "    * Aliases:\n" else "")
    ++ String.join (p.2.map (fun a => "      - " ++ a ++ "\n"))

/-- The extras block of `get_msg_showing_supported_environments`
(lines 251-261). -/
def supportedEnvsExtras (c : CKP) : String :=
  "\n- Supported Environments for '" ++ c.system_name ++ "':\n"
    ++ String.join ((supportedEnvsEnum c).map renderEnvEntry)
    ++ "\nSee " ++ c.supported_envs_filename ++ " for details."

/-- The matching phase of `qualified_env_name` (lines 104-130): walk the
longest-first environment names; on failure walk the longest-first
aliases and resolve the matched alias to its owning environment name;
if neither matches, fail with the not-found diagnostic. -/
def matchedEnvName (c : CKP) : Except Err String :=
  match c.env_names.find? (fun n => strIn n c.build_name) with
  | some n => .ok n
  | none =>
    match c.aliases.find? (fun a => strIn a c.build_name) with
    | none => .error (.notFound
        ("Unable to find alias or environment name for system '" ++ c.system_name
          ++ "' in\nkeyword string '" ++ c.build_name ++ "'.")
        (supportedEnvsExtras c))
    | some a => envNameForAlias c a

/-- The full `qualified_env_name` computation (lines 103-139) with the
two validation asserts - whose bodies are outside the provided sources -
taken as parameters: match, validate component versions, validate the
node type, and compose the qualified name. -/
def qualifiedEnvNameWith (vc nc : CKP → String → Except Err Unit) (c : CKP) :
    Except Err String :=
  match matchedEnvName c with
  | .error e => .error e
  | .ok m =>
    match vc c m with
    | .error e => .error e
    | .ok _ =>
      match nc c m with
      | .error e => .error e
      | .ok _ => .ok (c.system_name ++ "-" ++ m)

/-- End-to-end resolution: construct the parser, then read
`qualified_env_name` once. -/
def resolve (vc nc : CKP → String → Except Err Unit) (bn sys fn : String)
    (sec : List (String × String)) : Except Err String :=
  match mkCKP bn sys fn sec with
  | .error e => .error e
  | .ok c => qualifiedEnvNameWith vc nc c

/-- Instrumented `__init__`: alongside the constructed state, count how
many times the `supported_envs` property is evaluated.  Each evaluation
re-runs `ConfigParserEnhanced(self.supported_envs_filename)` (lines
61-63; the property has no memoization guard), so each count is one load
of the configuration file: one at line 47 for the entry names and one at
line 155 inside `get_aliases`. -/
def mkCKPLoads (bn sys fn : String) (sec : List (String × String)) :
    Except Err (CKP × Nat) :=
  match getAliases sys (sortLenDesc (sec.map Prod.fst)) sec with
  | .error e => .error e
  | .ok al => .ok (⟨normalize bn, sys, fn, sec, sortLenDesc (sec.map Prod.fst),
      sortLenDesc al⟩, 0 + 1 + 1)

/-- Instrumented `get_env_name_for_alias`: the method evaluates the
`supported_envs` property twice more (lines 187-188 and 190-191), i.e.
two further loads of the configuration file per call. -/
def envNameForAliasLoads (c : CKP) (matchedAlias : String) :
    Except Err (String × Nat) :=
  match envNameForAlias c matchedAlias with
  | .error e => .error e
  | .ok n => .ok (n, 0 + 1 + 1)

/-- Python `"'" + s + "'"` quoting used in the diagnostic messages. -/
def quoted (s : String) : String :=
  "'" ++ s ++ "'"

/-- Natural-language join: one item alone, two items joined by `and`,
longer lists comma-separated with `and` before the last item. -/
def andJoin : List String → String
  | [] => ""
  | [x] => x
  | [x, y] => x ++ " and " ++ y
  | x :: rest => x ++ ", " ++ andJoin rest

/-- Modelled from the spec: the failure message of
`assert_kw_str_versions_for_env_name_components_are_supported`, whose
body is not under the provided sources.  Spec section 4.3: the message
"varies grammatically by count (1 - 'X' is not supported; 2 - 'X' and
'Y' are not supported together; 3+ - 'X', 'Y', ... are not supported
together)". -/
def unsupportedVersionsMsg (offenders : List String) : String :=
  andJoin (offenders.map quoted)
    ++ (if offenders.length = 1 then " is not supported"
        else " are not supported together")

/-- Modelled from the spec: the versioned-component check of spec
section 4.3, abstracted over how the unsupported components are
computed (that computation is also outside the provided sources); on a
non-empty offender list it fails with the grammatical message plus the
supported-environments listing. -/
def versionsCheckWith (findOffenders : CKP → String → List String)
    (c : CKP) (m : String) : Except Err Unit :=
  if findOffenders c m = [] then .ok ()
  else .error (.unsupportedVersion (unsupportedVersionsMsg (findOffenders c m))
    (supportedEnvsExtras c))

/-! ### Helper lemmas -/

theorem parseAliases_empty : parseAliases "" = [] := by decide

theorem mem_sortLenDesc {a : String} {l : List String} : a ∈ sortLenDesc l ↔ a ∈ l :=
  (List.perm_insertionSort lenGE l).mem_iff

theorem mem_sortAlpha {a : String} {l : List String} : a ∈ sortAlpha l ↔ a ∈ l :=
  (List.perm_insertionSort _ l).mem_iff

theorem mem_dedupF {a : String} : ∀ {l : List String}, a ∈ dedupF l ↔ a ∈ l := by
  intro l
  induction l with
  | nil => simp [dedupF]
  | cons b t ih =>
    show a ∈ b :: (dedupF t).filter (fun x => !(x = b)) ↔ a ∈ b :: t
    simp only [List.mem_cons, List.mem_filter, ih]
    by_cases hab : a = b
    · simp [hab]
    · simp [hab]

theorem nodup_dedupF : ∀ (l : List String), (dedupF l).Nodup := by
  intro l
  induction l with
  | nil => simp [dedupF]
  | cons b t ih =>
    show (b :: (dedupF t).filter (fun x => !(x = b))).Nodup
    rw [List.nodup_cons]
    refine ⟨?_, List.Nodup.filter _ ih⟩
    intro hb
    have := (List.mem_filter.mp hb).2
    simp at this

theorem mem_dupAliases {a : String} {l : List String} :
    a ∈ dupAliases l ↔ 1 < l.count a := by
  unfold dupAliases
  rw [List.mem_filter, mem_dedupF]
  constructor
  · intro ⟨_, h⟩; simpa using h
  · intro h
    exact ⟨List.count_pos_iff.mp (Nat.lt_trans Nat.zero_lt_one h), by simpa using h⟩

theorem nodup_dupAliases (l : List String) : (dupAliases l).Nodup :=
  List.Nodup.filter _ (nodup_dedupF l)

theorem getAliases_ok {sys : String} {envNames al : List String}
    {sec : List (String × String)} (h : getAliases sys envNames sec = .ok al) :
    al = gatherAliases sec ∧ dupAliases al = []
      ∧ al.filter (fun a => envNames.contains a) = [] := by
  unfold getAliases at h
  split at h
  next => exact absurd h (by simp)
  next hu =>
    split at h
    next => exact absurd h (by simp)
    next hv =>
      simp only [Except.ok.injEq] at h
      subst h
      refine ⟨rfl, ?_, ?_⟩
      · unfold assertAliasListValuesAreUnique at hu
        by_cases hd : dupAliases (gatherAliases sec) = []
        · exact hd
        · rw [if_neg hd] at hu; exact absurd hu (by simp)
      · unfold assertAliasesNotEqualToEnvNames at hv
        by_cases hf : (gatherAliases sec).filter (fun a => envNames.contains a) = []
        · exact hf
        · rw [if_neg hf] at hv; exact absurd hv (by simp)

theorem mkCKP_ok {bn sys fn : String} {sec : List (String × String)} {c : CKP}
    (h : mkCKP bn sys fn sec = .ok c) :
    c.build_name = normalize bn ∧ c.system_name = sys
      ∧ c.supported_envs_filename = fn ∧ c.sect = sec
      ∧ c.env_names = sortLenDesc (sec.map Prod.fst)
      ∧ c.aliases = sortLenDesc (gatherAliases sec)
      ∧ dupAliases (gatherAliases sec) = []
      ∧ (gatherAliases sec).filter
          (fun a => (sortLenDesc (sec.map Prod.fst)).contains a) = [] := by
  unfold mkCKP at h
  split at h
  next => exact absurd h (by simp)
  next al hg =>
    simp only [Except.ok.injEq] at h
    obtain ⟨hal, hdup, hfil⟩ := getAliases_ok hg
    subst hal
    subst h
    exact ⟨rfl, rfl, rfl, rfl, rfl, rfl, hdup, hfil⟩

theorem normalize_idem (s : String) : normalize (normalize s) = normalize s := by
  unfold normalize
  have : (s.data.map subChar).map subChar = s.data.map subChar := by
    rw [List.map_map]
    apply List.map_congr_left
    intro c _
    show subChar (subChar c) = subChar c
    by_cases h : c = '_' <;> simp [subChar, h]
  simp [this]

/-- Specification-side single-pass matcher: walk the keys in their
original configuration order keeping the best match so far, where a key
beats the current best exactly when it matches and is at least as long
(so among equally long matches the earliest key wins).  The claim that
the code walks a length-descending stable sort and takes the first
substring match is proved as equality with this function. -/
def bestMatch (cand : String) : List String → Option String
  | [] => none
  | k :: ks =>
    match bestMatch cand ks with
    | none => if strIn k cand then some k else none
    | some m => if strIn k cand = true ∧ m.length ≤ k.length then some k else some m

theorem find?_orderedInsert (p : String → Bool) (k : String) :
    ∀ (l : List String), List.Sorted lenGE l →
      (List.orderedInsert lenGE k l).find? p =
        (match l.find? p with
          | none => if p k then some k else none
          | some m => if p k = true ∧ m.length ≤ k.length then some k else some m) := by
  intro l
  induction l with
  | nil =>
    intro _
    by_cases hpk : p k <;> simp [List.orderedInsert, List.find?, hpk]
  | cons b t ih =>
    intro hs
    by_cases hkb : lenGE k b
    · rw [List.orderedInsert_of_le _ _ hkb]
      by_cases hpk : p k
      · rw [List.find?_cons_of_pos _ hpk]
        cases hf : (b :: t).find? p with
        | none => simp [hpk]
        | some m =>
          have hm : m ∈ b :: t := List.mem_of_find?_eq_some hf
          have hml : m.length ≤ k.length := by
            rcases List.mem_cons.mp hm with rfl | hmt
            · exact hkb
            · exact Nat.le_trans (List.rel_of_sorted_cons hs m hmt) hkb
          simp [hpk, hml]
      · rw [List.find?_cons_of_neg _ hpk]
        cases hf : (b :: t).find? p with
        | none => simp [hpk]
        | some m => simp [hpk]
    · have hins : List.orderedInsert lenGE k (b :: t)
          = b :: List.orderedInsert lenGE k t := by
        simp [List.orderedInsert, hkb]
      rw [hins]
      by_cases hpb : p b
      · rw [List.find?_cons_of_pos _ hpb, List.find?_cons_of_pos _ hpb]
        have hnc : ¬ (p k = true ∧ b.length ≤ k.length) := by
          intro ⟨_, hbk⟩
          exact hkb hbk
        simp [hnc]
      · rw [List.find?_cons_of_neg _ hpb, List.find?_cons_of_neg _ hpb]
        exact ih (List.Sorted.of_cons hs)

theorem sortLenDesc_find?_eq_bestMatch (cand : String) (keys : List String) :
    (sortLenDesc keys).find? (fun k => strIn k cand) = bestMatch cand keys := by
  induction keys with
  | nil => rfl
  | cons k ks ih =>
    show (List.orderedInsert lenGE k (List.insertionSort lenGE ks)).find? _ = _
    rw [find?_orderedInsert _ _ _ (List.sorted_insertionSort lenGE ks)]
    unfold sortLenDesc at ih
    rw [ih]
    rfl

theorem bestMatch_eq_none {cand : String} :
    ∀ {ks : List String}, bestMatch cand ks = none →
      ∀ k ∈ ks, strIn k cand = false := by
  intro ks
  induction ks with
  | nil => intro _ k hk; exact absurd hk (List.not_mem_nil k)
  | cons b t ih =>
    intro h k hk
    unfold bestMatch at h
    cases hbb : bestMatch cand t with
    | none =>
      simp only [hbb] at h
      by_cases hpb : strIn b cand
      · rw [if_pos hpb] at h; exact absurd h (by simp)
      · rcases List.mem_cons.mp hk with rfl | hkt
        · simpa using hpb
        · exact ih hbb k hkt
    | some m2 =>
      simp only [hbb] at h
      split at h <;> exact absurd h (by simp)

theorem bestMatch_spec (cand : String) :
    ∀ (keys : List String) (m : String), bestMatch cand keys = some m →
      m ∈ keys ∧ strIn m cand = true
        ∧ ∀ k ∈ keys, strIn k cand = true → k.length ≤ m.length := by
  intro keys
  induction keys with
  | nil => intro m h; exact absurd h (by simp [bestMatch])
  | cons k ks ih =>
    intro m h
    unfold bestMatch at h
    cases hb : bestMatch cand ks with
    | none =>
      simp only [hb] at h
      by_cases hpk : strIn k cand
      · rw [if_pos hpk] at h
        simp only [Option.some.injEq] at h
        subst h
        refine ⟨List.mem_cons_self _ _, hpk, ?_⟩
        intro k2 hk2 hp2
        rcases List.mem_cons.mp hk2 with rfl | hk2t
        · exact Nat.le_refl _
        · rw [bestMatch_eq_none hb k2 hk2t] at hp2
          exact absurd hp2 (by simp)
      · rw [if_neg hpk] at h
        exact absurd h (by simp)
    | some m2 =>
      simp only [hb] at h
      obtain ⟨hmem2, hp2, hmax2⟩ := ih m2 hb
      by_cases hc : strIn k cand = true ∧ m2.length ≤ k.length
      · rw [if_pos hc] at h
        simp only [Option.some.injEq] at h
        subst h
        refine ⟨List.mem_cons_self _ _, hc.1, ?_⟩
        intro k2 hk2 hpk2
        rcases List.mem_cons.mp hk2 with rfl | hk2t
        · exact Nat.le_refl _
        · exact Nat.le_trans (hmax2 k2 hk2t hpk2) hc.2
      · rw [if_neg hc] at h
        simp only [Option.some.injEq] at h
        subst h
        refine ⟨List.mem_cons_of_mem _ hmem2, hp2, ?_⟩
        intro k2 hk2 hpk2
        rcases List.mem_cons.mp hk2 with rfl | hk2t
        · by_cases hlen : k2.length ≤ m2.length
          · exact hlen
          · exact absurd ⟨hpk2, Nat.le_of_lt (Nat.lt_of_not_le hlen)⟩ hc
        · exact hmax2 k2 hk2t hpk2

/-! ### Claim theorems -/

/-- C7: resolution is invariant under replacing underscores with hyphens
in the candidate string: the constructed parser state, and therefore the
end-to-end resolution result, are identical for a candidate and for its
underscore-to-hyphen normalization. -/
theorem resolution_invariant_under_normalization
    (vc nc : CKP → String → Except Err Unit) (bn sys fn : String)
    (sec : List (String × String)) :
    mkCKP bn sys fn sec = mkCKP (normalize bn) sys fn sec
    ∧ resolve vc nc bn sys fn sec = resolve vc nc (normalize bn) sys fn sec := by
  have hmk : mkCKP bn sys fn sec = mkCKP (normalize bn) sys fn sec := by
    unfold mkCKP
    rw [normalize_idem]
  exact ⟨hmk, by unfold resolve; rw [hmk]⟩

/-- C2: the matcher's walk over the length-descending, stable-tie
sorted key list, taking the first substring match, coincides with the
single-pass longest-match scan `bestMatch`; any returned match is a
substring of the candidate of maximal length among matching keys; with
entry names intel and intel-19 and candidate intel-19-foo the resolved
entry is intel-19; and on an exact length tie the earlier key wins. -/
theorem matcher_walks_longest_first (cand : String) (keys : List String) :
    ((sortLenDesc keys).find? (fun k => strIn k cand) = bestMatch cand keys)
    ∧ (∀ m, bestMatch cand keys = some m →
        m ∈ keys ∧ strIn m cand = true
          ∧ ∀ k ∈ keys, strIn k cand = true → k.length ≤ m.length)
    ∧ (match mkCKP "intel-19-foo" "sys" "f.ini" [("intel", ""), ("intel-19", "")] with
        | .ok c => matchedEnvName c
        | .error e => .error e) = .ok "intel-19"
    ∧ (sortLenDesc ["ab", "cd"]).find? (fun k => strIn k "xcdabz") = some "ab" :=
  ⟨sortLenDesc_find?_eq_bestMatch cand keys,
    fun m h => bestMatch_spec cand keys m h, by decide, by decide⟩

theorem matcher_walks_longest_first_witness :
    ((sortLenDesc ["intel", "intel-19"]).find? (fun k => strIn k "intel-19-foo")
        = bestMatch "intel-19-foo" ["intel", "intel-19"])
    ∧ bestMatch "intel-19-foo" ["intel", "intel-19"] = some "intel-19" :=
  ⟨(matcher_walks_longest_first "intel-19-foo" ["intel", "intel-19"]).1, by decide⟩

/-- Conclusion proved for C1 at a given parser state: the match phase
returns some environment name that occurs in the build name, the result
is unchanged under arbitrary replacement of the alias list, and when
both validation checks pass the qualified name is the system name
joined with a hyphen to the matched entry name. -/
def nameMatchOutcome (c : CKP) : Prop :=
  ∃ m, c.env_names.find? (fun n => strIn n c.build_name) = some m
    ∧ m ∈ c.env_names ∧ strIn m c.build_name = true
    ∧ matchedEnvName c = .ok m
    ∧ (∀ al : List String, matchedEnvName { c with aliases := al } = .ok m)
    ∧ (∀ vc nc : CKP → String → Except Err Unit,
        vc c m = .ok () → nc c m = .ok () →
          qualifiedEnvNameWith vc nc c = .ok (c.system_name ++ "-" ++ m))

/-- C1: a candidate containing any environment name as a substring is
resolved through the environment-name walk alone: the alias list is
never consulted (the outcome is invariant under replacing it), and the
returned qualified name is `{system_name}-{matched_entry_name}`. -/
theorem name_match_precedes_alias_match (c : CKP)
    (h : ∃ n ∈ c.env_names, strIn n c.build_name = true) :
    nameMatchOutcome c := by
  obtain ⟨n, hn, hp⟩ := h
  have hsome : (c.env_names.find? (fun n => strIn n c.build_name)).isSome :=
    List.find?_isSome.mpr ⟨n, hn, hp⟩
  obtain ⟨m, hm⟩ := Option.isSome_iff_exists.mp hsome
  have hok : matchedEnvName c = .ok m := by
    unfold matchedEnvName
    rw [hm]
  have hpm : strIn m c.build_name = true := by
    have h2 := List.find?_some hm
    simpa using h2
  unfold nameMatchOutcome
  refine ⟨m, hm, List.mem_of_find?_eq_some hm, hpm, hok, ?_, ?_⟩
  · intro al
    unfold matchedEnvName
    have h1 : ({ c with aliases := al } : CKP).env_names = c.env_names := rfl
    have h2 : ({ c with aliases := al } : CKP).build_name = c.build_name := rfl
    rw [h1, h2, hm]
  · intro vc nc hvc hnc
    unfold qualifiedEnvNameWith
    simp only [hok, hvc, hnc]

theorem name_match_precedes_alias_match_witness :
    (∃ n ∈ (CKP.mk "intel-18.0.5-x" "sys" "f.ini"
        [("intel-18.0.5", ""), ("intel-19.0.4", "\nintel-18.0")]
        ["intel-18.0.5", "intel-19.0.4"] ["intel-18.0"]).env_names,
      strIn n (CKP.mk "intel-18.0.5-x" "sys" "f.ini"
        [("intel-18.0.5", ""), ("intel-19.0.4", "\nintel-18.0")]
        ["intel-18.0.5", "intel-19.0.4"] ["intel-18.0"]).build_name = true)
    ∧ nameMatchOutcome (CKP.mk "intel-18.0.5-x" "sys" "f.ini"
        [("intel-18.0.5", ""), ("intel-19.0.4", "\nintel-18.0")]
        ["intel-18.0.5", "intel-19.0.4"] ["intel-18.0"]) :=
  ⟨by decide, name_match_precedes_alias_match _ (by decide)⟩

theorem findAliasOwner_of_mem {a : String} :
    ∀ {sec : List (String × String)}, (∃ e ∈ sec, a ∈ parseAliases e.2) →
      ∃ n, findAliasOwner a sec = some n := by
  intro sec
  induction sec with
  | nil => intro ⟨e, he, _⟩; exact absurd he (List.not_mem_nil e)
  | cons p rest ih =>
    intro ⟨e, he, ha⟩
    obtain ⟨nm, v⟩ := p
    have hred : findAliasOwner a ((nm, v) :: rest)
        = if v = "" then findAliasOwner a rest
          else if (parseAliases v).contains a then some nm
          else findAliasOwner a rest := rfl
    by_cases hv : v = ""
    · rcases List.mem_cons.mp he with rfl | het
      · rw [hv, parseAliases_empty] at ha
        exact absurd ha (List.not_mem_nil a)
      · obtain ⟨n, hn⟩ := ih ⟨e, het, ha⟩
        exact ⟨n, by rw [hred, if_pos hv]; exact hn⟩
    · by_cases hc : (parseAliases v).contains a = true
      · exact ⟨nm, by rw [hred, if_neg hv, if_pos hc]⟩
      · have hrest : ∃ e ∈ rest, a ∈ parseAliases e.2 := by
          rcases List.mem_cons.mp he with rfl | het
          · exact absurd (by simpa using ha) hc
          · exact ⟨e, het, ha⟩
        obtain ⟨n, hn⟩ := ih hrest
        exact ⟨n, by rw [hred, if_neg hv, if_neg hc]; exact hn⟩

/-- C10: matching is bare substring containment with no token-boundary
check: whenever any environment name or alias of the (validly
constructed) parser occurs as a contiguous character sequence in the
build name, the match phase succeeds rather than failing with the
not-found diagnostic - including alias intel embedded inside the
unrelated token myintelx. -/
theorem substring_match_needs_no_boundary (bn sys fn : String)
    (sec : List (String × String)) (c : CKP)
    (hmk : mkCKP bn sys fn sec = .ok c)
    (h : ∃ k, (k ∈ c.env_names ∨ k ∈ c.aliases) ∧ strIn k c.build_name = true) :
    ∃ m, matchedEnvName c = .ok m := by
  obtain ⟨-, -, -, hsect, -, hal, -, -⟩ := mkCKP_ok hmk
  by_cases hex : ∃ n, n ∈ c.env_names ∧ strIn n c.build_name = true
  · obtain ⟨m, hm⟩ := Option.isSome_iff_exists.mp (List.find?_isSome.mpr hex)
    exact ⟨m, by unfold matchedEnvName; rw [hm]⟩
  · obtain ⟨k, hk, hkp⟩ := h
    have hkal : k ∈ c.aliases := by
      rcases hk with hke | hka
      · exact absurd ⟨k, hke, hkp⟩ hex
      · exact hka
    have hnone : c.env_names.find? (fun n => strIn n c.build_name) = none := by
      rw [List.find?_eq_none]
      intro x hx hpx
      exact hex ⟨x, hx, hpx⟩
    have hsomeA : (c.aliases.find? (fun a => strIn a c.build_name)).isSome :=
      List.find?_isSome.mpr ⟨k, hkal, hkp⟩
    obtain ⟨a, hfa⟩ := Option.isSome_iff_exists.mp hsomeA
    have hag : a ∈ gatherAliases sec := by
      have := List.mem_of_find?_eq_some hfa
      rw [hal] at this
      exact mem_sortLenDesc.mp this
    have hownEx : ∃ e ∈ sec, a ∈ parseAliases e.2 := by
      unfold gatherAliases at hag
      rw [List.mem_flatten] at hag
      obtain ⟨l, hl, hal2⟩ := hag
      rw [List.mem_map] at hl
      obtain ⟨e, he, rfl⟩ := hl
      exact ⟨e, he, hal2⟩
    obtain ⟨n, hn⟩ := findAliasOwner_of_mem hownEx
    refine ⟨n, ?_⟩
    unfold matchedEnvName
    rw [hnone, hfa]
    show envNameForAlias c a = .ok n
    unfold envNameForAlias
    rw [hsect, hn]

theorem substring_match_needs_no_boundary_witness :
    (mkCKP "myintelx" "sys" "f.ini" [("intel-18.0.5-mpich-7.7.6", "\nintel")]
        = .ok (CKP.mk "myintelx" "sys" "f.ini"
            [("intel-18.0.5-mpich-7.7.6", "\nintel")]
            ["intel-18.0.5-mpich-7.7.6"] ["intel"]))
    ∧ ("intel" ∈ (CKP.mk "myintelx" "sys" "f.ini"
          [("intel-18.0.5-mpich-7.7.6", "\nintel")]
          ["intel-18.0.5-mpich-7.7.6"] ["intel"]).aliases
        ∧ strIn "intel" "myintelx" = true)
    ∧ (∃ m, matchedEnvName (CKP.mk "myintelx" "sys" "f.ini"
        [("intel-18.0.5-mpich-7.7.6", "\nintel")]
        ["intel-18.0.5-mpich-7.7.6"] ["intel"]) = .ok m) :=
  ⟨by decide, by decide,
    substring_match_needs_no_boundary "myintelx" "sys" "f.ini"
      [("intel-18.0.5-mpich-7.7.6", "\nintel")]
      (CKP.mk "myintelx" "sys" "f.ini"
        [("intel-18.0.5-mpich-7.7.6", "\nintel")]
        ["intel-18.0.5-mpich-7.7.6"] ["intel"])
      (by decide) ⟨"intel", Or.inr (by decide), by decide⟩⟩

/-- C4: if the gathered alias list contains some value more than once,
alias gathering fails with the duplicate-aliases diagnostic, whose
offender list holds exactly the duplicated values, each exactly once;
if no value repeats, the uniqueness check passes. -/
theorem duplicate_aliases_aggregated (sys : String) (envNames : List String)
    (sec : List (String × String)) :
    ((∃ a, 1 < (gatherAliases sec).count a) →
      getAliases sys envNames sec
        = .error (.duplicateAliases
            ("Aliases for '" ++ sys ++ "' contains duplicates:")
            (dupAliases (gatherAliases sec)))
      ∧ (dupAliases (gatherAliases sec)).Nodup
      ∧ (∀ a, a ∈ dupAliases (gatherAliases sec) ↔ 1 < (gatherAliases sec).count a))
    ∧ ((∀ a, (gatherAliases sec).count a ≤ 1) →
        assertAliasListValuesAreUnique sys (gatherAliases sec) = .ok ()) := by
  constructor
  · intro ⟨a, ha⟩
    have hne : dupAliases (gatherAliases sec) ≠ [] := by
      intro hnil
      have := mem_dupAliases.mpr ha
      rw [hnil] at this
      exact absurd this (List.not_mem_nil a)
    refine ⟨?_, nodup_dupAliases _, fun a => mem_dupAliases⟩
    unfold getAliases assertAliasListValuesAreUnique
    simp [hne]
  · intro h
    have hnil : dupAliases (gatherAliases sec) = [] := by
      rw [List.eq_nil_iff_forall_not_mem]
      intro a ha
      exact absurd (mem_dupAliases.mp ha) (Nat.not_lt.mpr (h a))
    unfold assertAliasListValuesAreUnique
    simp [hnil]

theorem contains_eq_true_iff {l : List String} {a : String} :
    l.contains a = true ↔ a ∈ l := List.elem_iff

theorem duplicate_aliases_aggregated_witness :
    ((1 < (gatherAliases [("e1", "\nintel-18\nintel"), ("e2", "\nintel-19\nintel")]).count
        "intel")
      ∧ getAliases "machine-type-1" ["x"]
            [("e1", "\nintel-18\nintel"), ("e2", "\nintel-19\nintel")]
          = .error (.duplicateAliases
              "Aliases for 'machine-type-1' contains duplicates:"
              (dupAliases (gatherAliases
                [("e1", "\nintel-18\nintel"), ("e2", "\nintel-19\nintel")])))
      ∧ (dupAliases (gatherAliases
          [("e1", "\nintel-18\nintel"), ("e2", "\nintel-19\nintel")])).Nodup
      ∧ (∀ a, a ∈ dupAliases (gatherAliases
            [("e1", "\nintel-18\nintel"), ("e2", "\nintel-19\nintel")])
          ↔ 1 < (gatherAliases
              [("e1", "\nintel-18\nintel"), ("e2", "\nintel-19\nintel")]).count a))
    ∧ ((∀ a, (gatherAliases [("e1", "\nintel-18")]).count a ≤ 1)
      ∧ assertAliasListValuesAreUnique "machine-type-1"
          (gatherAliases [("e1", "\nintel-18")]) = .ok ()) := by
  have hcnt : ∀ a, (gatherAliases [("e1", "\nintel-18")]).count a ≤ 1 := by
    intro a
    have hg : gatherAliases [("e1", "\nintel-18")] = ["intel-18"] := by decide
    rw [hg]
    exact List.count_le_length a ["intel-18"]
  refine ⟨⟨by decide, ?_⟩, hcnt,
    (duplicate_aliases_aggregated "machine-type-1" ["x"] [("e1", "\nintel-18")]).2 hcnt⟩
  exact ((duplicate_aliases_aggregated "machine-type-1" ["x"]
    [("e1", "\nintel-18\nintel"), ("e2", "\nintel-19\nintel")]).1 ⟨"intel", by decide⟩)

/-- C5 counterexample: with the section holding the single entry env1
whose block lists y, y and env1, the alias env1 collides with the entry
name env1, yet gathering fails with the duplicate-aliases diagnostic
listing only y: the colliding alias is not listed. -/
theorem alias_collision_not_listed_counterexample :
    ("env1" ∈ gatherAliases [("env1", "\ny\ny\nenv1")]
      ∧ "env1" ∈ sortLenDesc
          (([("env1", "\ny\ny\nenv1")] : List (String × String)).map Prod.fst))
    ∧ getAliases "sys"
        (sortLenDesc (([("env1", "\ny\ny\nenv1")] : List (String × String)).map Prod.fst))
        [("env1", "\ny\ny\nenv1")]
        = .error (.duplicateAliases "Aliases for 'sys' contains duplicates:" ["y"])
    ∧ "env1" ∉ (["y"] : List String) := by decide

/-- C5 (amended): the aliases of a validly constructed parser are
disjoint from its environment names; an alias/entry-name collision
always makes gathering fail fatally; and when the alias list passes the
uniqueness check (which runs first and takes precedence), the failure is
the collision diagnostic listing exactly the offending aliases. -/
theorem alias_env_name_disjointness (bn sys fn : String)
    (sec : List (String × String)) :
    (∀ c, mkCKP bn sys fn sec = .ok c → ∀ a ∈ c.aliases, a ∉ c.env_names)
    ∧ (∀ envNames : List String, (∃ a ∈ gatherAliases sec, a ∈ envNames) →
        ∃ e, getAliases sys envNames sec = .error e)
    ∧ (∀ envNames : List String, (∃ a ∈ gatherAliases sec, a ∈ envNames) →
        (∀ x, (gatherAliases sec).count x ≤ 1) →
        getAliases sys envNames sec
          = .error (.aliasEqualsEnvName
              ("Alias found for '" ++ sys ++ "' that matches an environment name:")
              ((gatherAliases sec).filter (fun a => envNames.contains a)))
        ∧ (gatherAliases sec).filter (fun a => envNames.contains a) ≠ []
        ∧ (∀ a, a ∈ (gatherAliases sec).filter (fun a => envNames.contains a)
            ↔ a ∈ gatherAliases sec ∧ a ∈ envNames)) := by
  refine ⟨?_, ?_, ?_⟩
  · intro c hmk a ha hin
    obtain ⟨-, -, -, -, henv, hal, -, hfil⟩ := mkCKP_ok hmk
    rw [hal] at ha
    rw [henv] at hin
    have hmem : a ∈ gatherAliases sec := mem_sortLenDesc.mp ha
    have := List.filter_eq_nil_iff.mp hfil a hmem
    exact this (by simpa using contains_eq_true_iff.mpr hin)
  · intro envNames ⟨a, hag, hae⟩
    by_cases hd : dupAliases (gatherAliases sec) = []
    · have hfne : (gatherAliases sec).filter (fun a => envNames.contains a) ≠ [] := by
        intro h0
        exact (List.filter_eq_nil_iff.mp h0 a hag)
          (by simpa using contains_eq_true_iff.mpr hae)
      refine ⟨.aliasEqualsEnvName
        ("Alias found for '" ++ sys ++ "' that matches an environment name:")
        ((gatherAliases sec).filter (fun a => envNames.contains a)), ?_⟩
      unfold getAliases assertAliasListValuesAreUnique assertAliasesNotEqualToEnvNames
      rw [if_pos hd, if_neg hfne]
    · refine ⟨.duplicateAliases
        ("Aliases for '" ++ sys ++ "' contains duplicates:")
        (dupAliases (gatherAliases sec)), ?_⟩
      unfold getAliases assertAliasListValuesAreUnique
      rw [if_neg hd]
  · intro envNames ⟨a, hag, hae⟩ hcnt
    have hd : dupAliases (gatherAliases sec) = [] := by
      rw [List.eq_nil_iff_forall_not_mem]
      intro x hx
      exact absurd (mem_dupAliases.mp hx) (Nat.not_lt.mpr (hcnt x))
    have hfne : (gatherAliases sec).filter (fun a => envNames.contains a) ≠ [] := by
      intro h0
      exact (List.filter_eq_nil_iff.mp h0 a hag)
        (by simpa using contains_eq_true_iff.mpr hae)
    refine ⟨?_, hfne, ?_⟩
    · unfold getAliases assertAliasListValuesAreUnique assertAliasesNotEqualToEnvNames
      rw [if_pos hd, if_neg hfne]
    · intro x
      rw [List.mem_filter]
      constructor
      · intro ⟨h1, h2⟩
        exact ⟨h1, contains_eq_true_iff.mp (by simpa using h2)⟩
      · intro ⟨h1, h2⟩
        exact ⟨h1, by simpa using contains_eq_true_iff.mpr h2⟩

theorem alias_env_name_disjointness_witness :
    (mkCKP "default-env" "machine-type-1" "f.ini"
        [("intel-18.0.5", "\nintel-18\ndefault-env")]
        = .ok (CKP.mk "default-env" "machine-type-1" "f.ini"
            [("intel-18.0.5", "\nintel-18\ndefault-env")]
            ["intel-18.0.5"] ["default-env", "intel-18"]))
    ∧ (∀ a ∈ (CKP.mk "default-env" "machine-type-1" "f.ini"
          [("intel-18.0.5", "\nintel-18\ndefault-env")]
          ["intel-18.0.5"] ["default-env", "intel-18"]).aliases,
        a ∉ (CKP.mk "default-env" "machine-type-1" "f.ini"
          [("intel-18.0.5", "\nintel-18\ndefault-env")]
          ["intel-18.0.5"] ["default-env", "intel-18"]).env_names)
    ∧ (∃ e, getAliases "machine-type-1" ["intel-18"]
        [("intel-18.0.5", "\nintel-18\ndefault-env")] = .error e)
    ∧ getAliases "machine-type-1" ["intel-18"]
        [("intel-18.0.5", "\nintel-18\ndefault-env")]
        = .error (.aliasEqualsEnvName
            "Alias found for 'machine-type-1' that matches an environment name:"
            ["intel-18"]) := by
  have hcnt : ∀ x,
      (gatherAliases [("intel-18.0.5", "\nintel-18\ndefault-env")]).count x ≤ 1 := by
    have hnd : (gatherAliases [("intel-18.0.5", "\nintel-18\ndefault-env")]).Nodup := by
      decide
    exact fun x => List.nodup_iff_count_le_one.mp hnd x
  refine ⟨by decide, ?_, ?_, ?_⟩
  · exact (alias_env_name_disjointness "default-env" "machine-type-1" "f.ini"
      [("intel-18.0.5", "\nintel-18\ndefault-env")]).1 _ (by decide)
  · exact (alias_env_name_disjointness "default-env" "machine-type-1" "f.ini"
      [("intel-18.0.5", "\nintel-18\ndefault-env")]).2.1 ["intel-18"]
      ⟨"intel-18", by decide, by decide⟩
  · exact ((alias_env_name_disjointness "default-env" "machine-type-1" "f.ini"
      [("intel-18.0.5", "\nintel-18\ndefault-env")]).2.2 ["intel-18"]
      ⟨"intel-18", by decide, by decide⟩ hcnt).1

theorem findAliasOwner_unique {a : String} :
    ∀ {sec : List (String × String)}, (gatherAliases sec).count a ≤ 1 →
      ∀ e ∈ sec, a ∈ parseAliases e.2 → findAliasOwner a sec = some e.1 := by
  intro sec
  induction sec with
  | nil => intro _ e he; exact absurd he (List.not_mem_nil e)
  | cons p rest ih =>
    intro hcount e he ha
    obtain ⟨nm, v⟩ := p
    have hgat : gatherAliases ((nm, v) :: rest)
        = parseAliases v ++ gatherAliases rest := rfl
    rw [hgat, List.count_append] at hcount
    have hred : findAliasOwner a ((nm, v) :: rest)
        = if v = "" then findAliasOwner a rest
          else if (parseAliases v).contains a then some nm
          else findAliasOwner a rest := rfl
    rcases List.mem_cons.mp he with rfl | het
    · have hv : ¬ v = "" := by
        intro hv0
        rw [hv0, parseAliases_empty] at ha
        exact absurd ha (List.not_mem_nil a)
      have hc : (parseAliases v).contains a = true := contains_eq_true_iff.mpr ha
      rw [hred, if_neg hv, if_pos hc]
    · have hmem_rest : a ∈ gatherAliases rest := by
        show a ∈ (rest.map (fun e => parseAliases e.2)).flatten
        rw [List.mem_flatten]
        exact ⟨parseAliases e.2, List.mem_map_of_mem _ het, ha⟩
      have h1 : 0 < (gatherAliases rest).count a := List.count_pos_iff.mpr hmem_rest
      have hnotv : a ∉ parseAliases v := by
        intro hav
        have h2 : 0 < (parseAliases v).count a := List.count_pos_iff.mpr hav
        omega
      have hc : ¬ ((parseAliases v).contains a = true) := by
        intro hcc
        exact hnotv (contains_eq_true_iff.mp hcc)
      have hcr : (gatherAliases rest).count a ≤ 1 := by omega
      by_cases hv : v = ""
      · rw [hred, if_pos hv]
        exact ih hcr e het ha
      · rw [hred, if_neg hv, if_neg hc]
        exact ih hcr e het ha

/-- C6: for a validly constructed parser, get_env_name_for_alias maps
every gathered alias back to exactly the entry name under whose value
block the alias appears, wherever that entry sits in the section. -/
theorem alias_roundtrip (bn sys fn : String) (sec : List (String × String))
    (c : CKP) (hmk : mkCKP bn sys fn sec = .ok c)
    (a : String) ( _ha : a ∈ c.aliases)
    (e : String × String) (he : e ∈ sec) (hown : a ∈ parseAliases e.2) :
    envNameForAlias c a = .ok e.1 := by
  obtain ⟨-, -, -, hsect, -, -, hdup, -⟩ := mkCKP_ok hmk
  have hcnt : (gatherAliases sec).count a ≤ 1 := by
    by_contra hgt
    have hmem : a ∈ dupAliases (gatherAliases sec) :=
      mem_dupAliases.mpr (Nat.lt_of_not_le hgt)
    rw [hdup] at hmem
    exact absurd hmem (List.not_mem_nil a)
  have hfind := findAliasOwner_unique hcnt e he hown
  unfold envNameForAlias
  rw [hsect, hfind]

theorem alias_roundtrip_witness :
    (mkCKP "intel" "machine-type-1" "f.ini"
        [("intel-19.0.4-mpich-7.7.15", "\nintel-19"),
          ("intel-18.0.5-mpich-7.7.15", "\nintel-18\nintel\ndefault-env")]
        = .ok (CKP.mk "intel" "machine-type-1" "f.ini"
            [("intel-19.0.4-mpich-7.7.15", "\nintel-19"),
              ("intel-18.0.5-mpich-7.7.15", "\nintel-18\nintel\ndefault-env")]
            ["intel-19.0.4-mpich-7.7.15", "intel-18.0.5-mpich-7.7.15"]
            ["default-env", "intel-19", "intel-18", "intel"]))
    ∧ envNameForAlias (CKP.mk "intel" "machine-type-1" "f.ini"
        [("intel-19.0.4-mpich-7.7.15", "\nintel-19"),
          ("intel-18.0.5-mpich-7.7.15", "\nintel-18\nintel\ndefault-env")]
        ["intel-19.0.4-mpich-7.7.15", "intel-18.0.5-mpich-7.7.15"]
        ["default-env", "intel-19", "intel-18", "intel"]) "intel"
      = .ok "intel-18.0.5-mpich-7.7.15" :=
  ⟨by decide,
    alias_roundtrip "intel" "machine-type-1" "f.ini"
      [("intel-19.0.4-mpich-7.7.15", "\nintel-19"),
        ("intel-18.0.5-mpich-7.7.15", "\nintel-18\nintel\ndefault-env")]
      (CKP.mk "intel" "machine-type-1" "f.ini"
        [("intel-19.0.4-mpich-7.7.15", "\nintel-19"),
          ("intel-18.0.5-mpich-7.7.15", "\nintel-18\nintel\ndefault-env")]
        ["intel-19.0.4-mpich-7.7.15", "intel-18.0.5-mpich-7.7.15"]
        ["default-env", "intel-19", "intel-18", "intel"])
      (by decide) "intel" (by decide)
      ("intel-18.0.5-mpich-7.7.15", "\nintel-18\nintel\ndefault-env")
      (by decide) (by decide)⟩

theorem sortAlpha_sorted (l : List String) :
    (sortAlpha l).Sorted (fun a b : String => a ≤ b) :=
  List.sorted_insertionSort _ l

theorem enum_names_eq_sortAlpha (c : CKP) :
    (supportedEnvsEnum c).map Prod.fst = sortAlpha c.env_names := by
  unfold supportedEnvsEnum
  rw [List.map_map]
  have hid : ∀ x ∈ sortAlpha c.env_names,
      (Prod.fst ∘ fun name => (name, sortAlpha (c.aliases.filter
        (fun a => findAliasOwner a c.sect == some name)))) x = id x :=
    fun x _ => rfl
  rw [List.map_congr_left hid, List.map_id]

/-- Content of the not-found diagnostic proved for C3 at a given parser
state: the match phase fails with the not-found error carrying the
supported-environments extras, whose enumeration lists every environment
name of the system in alphabetical order, each with the aliases it owns,
also alphabetically sorted. -/
def notFoundOutcome (c : CKP) : Prop :=
  matchedEnvName c = .error (.notFound
      ("Unable to find alias or environment name for system '" ++ c.system_name
        ++ "' in\nkeyword string '" ++ c.build_name ++ "'.")
      (supportedEnvsExtras c))
  ∧ ((supportedEnvsEnum c).map Prod.fst).Sorted (fun a b : String => a ≤ b)
  ∧ ((supportedEnvsEnum c).map Prod.fst).Perm c.env_names
  ∧ ∀ p ∈ supportedEnvsEnum c, p.2.Sorted (fun a b : String => a ≤ b)
      ∧ ∀ a, a ∈ p.2 ↔ (a ∈ c.aliases ∧ findAliasOwner a c.sect = some p.1)

/-- C3: when no environment name and no alias of the system occurs in
the build name, resolution fails with the not-found diagnostic that
enumerates every supported environment name alphabetically, each
followed by its aliases, also alphabetically sorted. -/
theorem not_found_lists_supported_envs (c : CKP)
    (hn : ∀ n ∈ c.env_names, strIn n c.build_name = false)
    (ha : ∀ a ∈ c.aliases, strIn a c.build_name = false) :
    notFoundOutcome c := by
  have hnone1 : c.env_names.find? (fun n => strIn n c.build_name) = none := by
    rw [List.find?_eq_none]
    intro x hx hpx
    rw [hn x hx] at hpx
    exact absurd hpx (by simp)
  have hnone2 : c.aliases.find? (fun a => strIn a c.build_name) = none := by
    rw [List.find?_eq_none]
    intro x hx hpx
    rw [ha x hx] at hpx
    exact absurd hpx (by simp)
  refine ⟨?_, ?_, ?_, ?_⟩
  · unfold matchedEnvName
    rw [hnone1, hnone2]
  · rw [enum_names_eq_sortAlpha]
    exact sortAlpha_sorted c.env_names
  · rw [enum_names_eq_sortAlpha]
    exact List.perm_insertionSort _ c.env_names
  · intro p hp
    rw [supportedEnvsEnum, List.mem_map] at hp
    obtain ⟨name, hname, rfl⟩ := hp
    refine ⟨sortAlpha_sorted _, ?_⟩
    intro a
    rw [mem_sortAlpha, List.mem_filter]
    constructor
    · intro ⟨h1, h2⟩
      exact ⟨h1, by simpa using h2⟩
    · intro ⟨h1, h2⟩
      exact ⟨h1, by simpa using h2⟩

theorem not_found_lists_supported_envs_witness :
    (∀ n ∈ (CKP.mk "bogus" "machine-type-5" "supported_envs.ini"
        [("intel-18.0.5-mpich-7.7.6", "\nintel-18\nintel\ndefault-env"),
          ("intel-19.0.4-mpich-7.7.6", "\nintel-19")]
        ["intel-18.0.5-mpich-7.7.6", "intel-19.0.4-mpich-7.7.6"]
        ["default-env", "intel-18", "intel-19", "intel"]).env_names,
      strIn n "bogus" = false)
    ∧ (∀ a ∈ (CKP.mk "bogus" "machine-type-5" "supported_envs.ini"
        [("intel-18.0.5-mpich-7.7.6", "\nintel-18\nintel\ndefault-env"),
          ("intel-19.0.4-mpich-7.7.6", "\nintel-19")]
        ["intel-18.0.5-mpich-7.7.6", "intel-19.0.4-mpich-7.7.6"]
        ["default-env", "intel-18", "intel-19", "intel"]).aliases,
      strIn a "bogus" = false)
    ∧ notFoundOutcome (CKP.mk "bogus" "machine-type-5" "supported_envs.ini"
        [("intel-18.0.5-mpich-7.7.6", "\nintel-18\nintel\ndefault-env"),
          ("intel-19.0.4-mpich-7.7.6", "\nintel-19")]
        ["intel-18.0.5-mpich-7.7.6", "intel-19.0.4-mpich-7.7.6"]
        ["default-env", "intel-18", "intel-19", "intel"]) :=
  ⟨by decide, by decide,
    not_found_lists_supported_envs _ (by decide) (by decide)⟩

/-- Message-grammar content proved for C8: the check fails with the
unsupported-version error carrying the supported-environments listing,
and the message reads "'X' is not supported" for one offender, "'X' and
'Y' are not supported together" for two, and a comma-separated list
ending in "are not supported together" for three or more. -/
def versionsMsgOutcome (findOffenders : CKP → String → List String)
    (c : CKP) (m : String) : Prop :=
  versionsCheckWith findOffenders c m
    = .error (.unsupportedVersion (unsupportedVersionsMsg (findOffenders c m))
        (supportedEnvsExtras c))
  ∧ (∀ x, findOffenders c m = [x] →
      unsupportedVersionsMsg (findOffenders c m)
        = quoted x ++ " is not supported")
  ∧ (∀ x y, findOffenders c m = [x, y] →
      unsupportedVersionsMsg (findOffenders c m)
        = quoted x ++ " and " ++ quoted y ++ " are not supported together")
  ∧ (∀ x y z rest, findOffenders c m = x :: y :: z :: rest →
      ∃ mid, unsupportedVersionsMsg (findOffenders c m)
        = quoted x ++ ", " ++ (mid ++ " are not supported together"))

/-- C8: when the versioned-component check finds unsupported
components, the failure message's grammar is determined by the offender
count, and the error always carries the supported-environments listing
for the current system. -/
theorem unsupported_versions_message_grammar
    (findOffenders : CKP → String → List String) (c : CKP) (m : String)
    (h : findOffenders c m ≠ []) :
    versionsMsgOutcome findOffenders c m := by
  refine ⟨?_, ?_, ?_, ?_⟩
  · unfold versionsCheckWith
    rw [if_neg h]
  · intro x hx
    rw [hx]
    show andJoin [quoted x] ++ _ = _
    rw [show andJoin [quoted x] = quoted x from rfl]
    rw [if_pos (by rfl)]
  · intro x y hx
    rw [hx]
    show andJoin [quoted x, quoted y] ++ _ = _
    rw [show andJoin [quoted x, quoted y]
      = quoted x ++ " and " ++ quoted y from rfl]
    rw [if_neg (by simp)]
  · intro x y z rest hx
    rw [hx]
    refine ⟨andJoin (quoted y :: quoted z :: rest.map quoted), ?_⟩
    show andJoin (quoted x :: quoted y :: quoted z :: rest.map quoted) ++ _ = _
    rw [show andJoin (quoted x :: quoted y :: quoted z :: rest.map quoted)
      = quoted x ++ ", " ++ andJoin (quoted y :: quoted z :: rest.map quoted) from rfl]
    rw [if_neg (by simp)]
    rw [String.append_assoc, String.append_assoc]

theorem unsupported_versions_message_grammar_witness :
    ((fun (_ : CKP) (_ : String) => (["intel-20"] : List String))
        (CKP.mk "intel-20" "machine-type-1" "f.ini" [] [] []) "x" ≠ [])
    ∧ versionsMsgOutcome (fun _ _ => ["intel-20"])
        (CKP.mk "intel-20" "machine-type-1" "f.ini" [] [] []) "x" :=
  ⟨by decide,
    unsupported_versions_message_grammar (fun _ _ => ["intel-20"])
      (CKP.mk "intel-20" "machine-type-1" "f.ini" [] [] []) "x" (by decide)⟩

/-- C9: the `supported_envs` property re-runs the configuration load on
every access (its memoization guard is missing), so already the
constructor performs two loads - never the single load the claim
states - and each `get_env_name_for_alias` call performs two more.  The
instrumented definitions agree with the plain ones on the value
computed. -/
theorem config_loaded_per_property_access (bn sys fn : String)
    (sec : List (String × String)) :
    Except.map Prod.fst (mkCKPLoads bn sys fn sec) = mkCKP bn sys fn sec
    ∧ Except.map Prod.snd (mkCKPLoads bn sys fn sec)
        = Except.map (fun _ => 2) (mkCKPLoads bn sys fn sec)
    ∧ mkCKPLoads "intel-18" "machine-type-5" "supported_envs.ini"
        [("intel-18.0.5-mpich-7.7.6", "\nintel-18")]
        = .ok (CKP.mk "intel-18" "machine-type-5" "supported_envs.ini"
            [("intel-18.0.5-mpich-7.7.6", "\nintel-18")]
            ["intel-18.0.5-mpich-7.7.6"] ["intel-18"], 2)
    ∧ (1 : Nat) < 2
    ∧ (∀ (c : CKP) (a : String),
        Except.map Prod.snd (envNameForAliasLoads c a)
          = Except.map (fun _ => 2) (envNameForAliasLoads c a)) := by
  refine ⟨?_, ?_, by decide, by decide, ?_⟩
  · unfold mkCKPLoads mkCKP
    cases hg : getAliases sys (sortLenDesc (sec.map Prod.fst)) sec with
    | error e => rfl
    | ok al => rfl
  · unfold mkCKPLoads
    cases hg : getAliases sys (sortLenDesc (sec.map Prod.fst)) sec with
    | error e => rfl
    | ok al => rfl
  · intro c a
    unfold envNameForAliasLoads
    cases he : envNameForAlias c a with
    | error e => rfl
    | ok n2 => rfl

end CKPModel
